import Mathlib

/-!
Verification development for the Admitai canonical-resolution pipeline.

This file shallowly embeds the canonical-name resolution subsystem of the
repository (backend/app/services/canonical and the checkpoint endpoint of
backend/app/api/v1/canonical.py) and proves properties about it.

Conventions of the embedding:
* Python strings are modelled as Lean `String` / `List Char`; the whitespace
  class of Python regular expressions and of `str.split()` / `str.strip()` is
  modelled by its ASCII fragment (space, tab, newline, carriage return,
  vertical tab, form feed), which covers every input appearing in the
  development.
* Python float scores (`hits / len(keywords)` compared against `0.3`) are
  modelled as exact rationals; for the tiny denominators that occur the
  comparison against the literal `0.3` agrees with the double-precision one.
* The two external boolean judges (rapidfuzz `partial_ratio >= 85` wrapped by
  `is_fuzzy_match`, and the LLM judge `llm_semantic_match`) are parameters of
  the embedding (`fz`, `lm : String → String → Bool`); the code treats both as
  opaque yes/no predicates at exactly these call boundaries.
* Database access is modelled by explicit table states (lists of rows kept in
  ascending-id order, as the store's `order("id")` queries return them) and an
  event trace recording which tables were queried, which records reached the
  cascading matcher, and which rows were written.
-/

namespace Admitai

/-! ## Python string primitives -/

/-- ASCII fragment of Python's whitespace class (`\s`, `str.split()`, `str.strip()`). -/
def pySpace (c : Char) : Bool :=
  c = ' ' || c = '\t' || c = '\n' || c = '\r' || c = '\x0b' || c = '\x0c'

/-- ASCII lower-casing of a character (`str.lower()` restricted to ASCII letters;
non-ASCII characters, e.g. the Chinese keywords, are unaffected, as in Python). -/
def pyLowerChar (c : Char) : Char :=
  if 'A' ≤ c && c ≤ 'Z' then Char.ofNat (c.toNat + 32) else c

/-- `str.lower()` on a whole string. -/
def pyLowerS (s : String) : String :=
  ⟨s.data.map pyLowerChar⟩

/-- Does the first list occur as a prefix of the second list?  Arguments:
haystack, then needle. -/
def listStartsWith : List Char → List Char → Bool
  | _, [] => true
  | [], _ :: _ => false
  | x :: xs, y :: ys => x = y && listStartsWith xs ys

/-- Does `needle` occur as a contiguous substring of the second argument?
Models Python's `needle in haystack`. -/
def listHasSub (needle : List Char) : List Char → Bool
  | [] => needle.isEmpty
  | h :: t => listStartsWith (h :: t) needle || listHasSub needle t

/-- Python `needle in haystack` on strings. -/
def pyIn (needle hay : String) : Bool :=
  listHasSub needle.data hay.data

/-- Number of whitespace-separated tokens, i.e. `len(s.split())`.
The boolean flag records whether the previous character was inside a token. -/
def countTokensAux : Bool → List Char → Nat
  | _, [] => 0
  | inWord, c :: t =>
    if pySpace c then countTokensAux false t
    else (if inWord then 0 else 1) + countTokensAux true t

/-- `len(s.split())` for a Python string. -/
def wordCount (s : String) : Nat :=
  countTokensAux false s.data

/-- `str.strip()`: drop leading and trailing whitespace. -/
def pyStrip (l : List Char) : List Char :=
  ((l.dropWhile pySpace).reverse.dropWhile pySpace).reverse

/-! ## Name normalizer (normalize.py)

`normalize_name` lower-cases, removes the degree/qualifier tokens with
`re.sub(r"(msc|ms|ma|meng|beng|phd|mres|programme|program)", "", ...)`,
replaces the bracket/punctuation characters with spaces, collapses whitespace runs and
trims.  The token-removal regex has no word boundaries: at each position the
alternatives are tried in the written order and the leftmost match is removed,
scanning resuming after it — which `removeTokens` reproduces exactly. -/

/-- The token-removal pass of `normalize_name`
(`re.sub(r"(msc|ms|ma|meng|beng|phd|mres|programme|program)", "", s)`). -/
def removeTokens : List Char → List Char
  | 'm' :: 's' :: 'c' :: r => removeTokens r
  | 'm' :: 's' :: r => removeTokens r
  | 'm' :: 'a' :: r => removeTokens r
  | 'm' :: 'e' :: 'n' :: 'g' :: r => removeTokens r
  | 'b' :: 'e' :: 'n' :: 'g' :: r => removeTokens r
  | 'p' :: 'h' :: 'd' :: r => removeTokens r
  | 'm' :: 'r' :: 'e' :: 's' :: r => removeTokens r
  | 'p' :: 'r' :: 'o' :: 'g' :: 'r' :: 'a' :: 'm' :: 'm' :: 'e' :: r => removeTokens r
  | 'p' :: 'r' :: 'o' :: 'g' :: 'r' :: 'a' :: 'm' :: r => removeTokens r
  | c :: r => c :: removeTokens r
  | [] => []

/-- The bracket, brace, colon, semicolon, slash and hyphen characters replaced
by the second `re.sub` of `normalize_name`. -/
def pyPunct (c : Char) : Bool :=
  c = '(' || c = ')' || c = '[' || c = ']' || c = '\x7b' || c = '\x7d' ||
  c = ':' || c = ';' || c = '/' || c = '-'

/-- Replace punctuation by a space (`re.sub(r"[\(\)\[\]{}:;/\-]", " ", s)`). -/
def replacePunct (l : List Char) : List Char :=
  l.map (fun c => if pyPunct c then ' ' else c)

/-- Collapse every maximal whitespace run to one space (`re.sub(r"\s+", " ", s)`). -/
def collapseWS : List Char → List Char
  | [] => []
  | [c] => if pySpace c then [' '] else [c]
  | c :: d :: r =>
    if pySpace c then
      if pySpace d then collapseWS (d :: r) else ' ' :: collapseWS (d :: r)
    else c :: collapseWS (d :: r)

/-- `normalize_name` from app/services/canonical/normalize.py. -/
def normalize_name (s : String) : String :=
  if s = "" then ""
  else ⟨pyStrip (collapseWS (replacePunct (removeTokens (s.data.map pyLowerChar))))⟩

/-! ## Keyword overlap (keyword_match.py) -/

/-- `keyword_overlap_score(name, keywords)`: fraction of keywords occurring
(lower-cased) as substrings of the lower-cased name; `0` on empty inputs. -/
def keyword_overlap_score (name : String) (keywords : List String) : ℚ :=
  if name = "" ∨ keywords = [] then 0
  else
    mkRat (keywords.countP (fun kw => pyIn (pyLowerS kw) (pyLowerS name)))
      keywords.length

/-- The matcher's and the pipeline's keyword acceptance threshold, the Python
literal `0.3` (exactly three tenths at the denominators occurring here). -/
def scoreThreshold : ℚ := mkRat 3 10

/-! ## Canonical catalog entries and the cascading matcher (canonical_mapper.py) -/

/-- A canonical catalog row, as consumed by the matcher: `id`,
`canonical_program_name_en` (with the code's `or ""` fallback folded into the
field) and the optional keyword set (`c.get("keywords", [])`). -/
structure Entry where
  id : Int
  canonical_program_name_en : String
  keywords : List String
deriving DecidableEq

/-- Step 1 loop of `map_to_canonical`: first entry whose normalized canonical
name equals the normalized input. -/
def findExact (norm : String) : List Entry → Option Int
  | [] => none
  | c :: rest =>
    if normalize_name c.canonical_program_name_en = norm then some c.id
    else findExact norm rest

/-- Step 2 loop of `map_to_canonical`: first entry accepted by the fuzzy judge
`is_fuzzy_match(norm, normalize_name(canonical_name))`, the judge being the
parameter `fz`. -/
def findFuzzy (fz : String → String → Bool) (norm : String) : List Entry → Option Int
  | [] => none
  | c :: rest =>
    if fz norm (normalize_name c.canonical_program_name_en) then some c.id
    else findFuzzy fz norm rest

/-- Step 3 loop of `map_to_canonical`: first entry with a nonempty keyword set
whose overlap score against the normalized input reaches `0.3`. -/
def findKeyword (norm : String) : List Entry → Option Int
  | [] => none
  | c :: rest =>
    if c.keywords ≠ [] ∧ scoreThreshold ≤ keyword_overlap_score norm c.keywords then some c.id
    else findKeyword norm rest

/-- Step 4 loop of `map_to_canonical`: first entry accepted by the semantic
judge `llm_semantic_match(program_name, canonical_name)`, the judge being the
parameter `lm` (oracle failures are already folded into `lm` answering false). -/
def findLlm (lm : String → String → Bool) (program_name : String) : List Entry → Option Int
  | [] => none
  | c :: rest =>
    if lm program_name c.canonical_program_name_en then some c.id
    else findLlm lm program_name rest

/-- `map_to_canonical(program_name, canonical_list)` from canonical_mapper.py:
guard on empty inputs, then the four matching stages in order, each returning
the first accepting entry's id. -/
def map_to_canonical (fz lm : String → String → Bool)
    (program_name : String) (canonical_list : List Entry) : Option Int :=
  if program_name = "" ∨ canonical_list = [] then none
  else
    let norm := normalize_name program_name
    match findExact norm canonical_list with
    | some i => some i
    | none =>
      match findFuzzy fz norm canonical_list with
      | some i => some i
      | none =>
        match findKeyword norm canonical_list with
        | some i => some i
        | none => findLlm lm program_name canonical_list

/-! ## Category classifier (category_classifier.py, keyword_match.py) -/

/-- `MAJOR_KEYWORDS`: the fixed category/keyword-list table, in its Python
insertion (= iteration) order. -/
def MAJOR_KEYWORDS : List (String × List String) :=
  [ ("computer_science",
      ["computer", "computing", "software", "programming", "code",
       "artificial intelligence", "ai", "machine learning", "ml",
       "deep learning", "neural",
       "data", "data science", "database", "big data",
       "algorithm", "theory", "information", "information system",
       "cyber", "security", "网络安全",
       "机器人", "人工智能", "机器学习", "深度学习",
       "计算机", "软件", "编程", "算法"]),
    ("civil_engineering",
      ["civil", "structural", "infrastructure",
       "geotechnical", "transportation", "bridge",
       "hydraulic", "construction",
       "土木", "结构", "岩土", "交通", "桥梁", "施工",
       "水利", "市政"]),
    ("chemical_engineering",
      ["chemical", "chemistry", "process", "reaction",
       "polymer", "bioprocess", "energy", "catalysis",
       "化工", "化学", "过程", "反应", "催化", "聚合物"]),
    ("materials_science",
      ["materials", "composite", "composites",
       "nano", "nanomaterials", "polymer", "metallurgy",
       "biomaterials",
       "材料", "复合材料", "金属", "纳米", "高分子"]),
    ("mechanical_engineering",
      ["mechanical", "mechatronics", "robotics",
       "manufacturing", "dynamics", "thermo", "fluid",
       "机械", "机电", "动力", "流体", "热能", "制造", "机器人"]),
    ("electrical_engineering",
      ["electrical", "electronics", "signal",
       "communication", "power", "semiconductor",
       "电气", "电子", "信号", "通信", "半导体", "电力"]),
    ("biomedical_engineering",
      ["biomedical", "bioengineering", "medical",
       "healthcare", "neuro", "neuroscience",
       "生物医学", "医工", "医疗", "神经", "生物工程"]),
    ("environmental_engineering",
      ["environment", "environmental", "sustainability",
       "ecology", "climate", "carbon",
       "环境", "生态", "可持续", "碳排放", "气候"]),
    ("energy_engineering",
      ["energy", "renewable", "nuclear", "power systems",
       "hydrogen", "battery",
       "能源", "可再生", "核能", "电力系统", "储能", "电池"]),
    ("finance",
      ["finance", "financial", "investment", "market",
       "fintech", "quant", "risk", "wealth",
       "金融", "投资", "量化", "风险", "财富", "资产"]),
    ("management",
      ["management", "business", "strategy", "consulting",
       "marketing", "hr", "supply chain", "operations",
       "商业", "管理", "运营", "供应链", "市场", "战略", "咨询"]),
    ("data_science",
      ["data science", "data analytics", "statistics",
       "machine learning", "AI", "big data",
       "数据科学", "数据分析", "统计", "人工智能"]),
    ("mathematics",
      ["mathematics", "applied math", "statistics",
       "algebra", "calculus", "probability",
       "数学", "应用数学", "统计"]),
    ("communications_engineering",
      ["communications", "signal processing", "wireless",
       "antenna", "5g", "通信", "信号处理", "无线"]),
    ("life_science",
      ["biology", "biotech", "biomedical",
       "生命科学", "生物", "生物技术"]) ]

/-- The best-category folding loop of `classify_category`: running pair of
(best category so far, best score so far), updated only on a strictly greater
score. -/
def bestFold (text : String) :
    List (String × List String) → Option String × ℚ → Option String × ℚ
  | [], acc => acc
  | (cat, kws) :: rest, (b, s) =>
    let sc := keyword_overlap_score text kws
    if s < sc then bestFold text rest (some cat, sc) else bestFold text rest (b, s)

/-- `classify_category(program_name, requirements)` from
category_classifier.py. -/
def classify_category (program_name : String) (requirements : String) : String :=
  let text := pyLowerS (program_name ++ " " ++ requirements)
  if pyStrip text.data = [] then "other"
  else
    match (bestFold text MAJOR_KEYWORDS (none, 0)).1 with
    | none => "other"
    | some c => c

/-- The per-category scores of a haystack, in registration order. -/
def specScores (text : String) : List ℚ :=
  MAJOR_KEYWORDS.map (fun p => keyword_overlap_score text p.2)

/-- The highest category score (at least `0`). -/
def specBestScore (text : String) : ℚ :=
  (specScores text).foldr max 0

/-- The classifier as the specification words it: empty/blank haystack gives
"other"; all categories scoring `0` gives "other"; otherwise the
earliest-registered category attaining the highest score. -/
def specClassify (program_name : String) (requirements : String) : String :=
  let text := pyLowerS (program_name ++ " " ++ requirements)
  if pyStrip text.data = [] then "other"
  else if specBestScore text ≤ 0 then "other"
  else
    match MAJOR_KEYWORDS.find? (fun p => decide (keyword_overlap_score text p.2 = specBestScore text)) with
    | some p => p.1
    | none => "other"

/-! ## Pipeline orchestrator (run_pipeline.py), functional core

The embedding models one complete worker pass of `run_pipeline` in which the
shared stop/pause flags stay unset (their concurrency discipline is treated
separately below).  Store reads return the table rows in ascending-id order;
store writes always succeed (per-record write failures are outside the claims
modelled here).  An event trace records each table query, each record handed
to the cascading matcher and each row write. -/

/-- Python truthiness of an optional integer (`if cid:`, `and resume_from_id`):
`None` and `0` are falsy. -/
def pyTruthyInt : Option Int → Bool
  | none => false
  | some n => n != 0

/-- `x or y` on optional integers (`resume_from_id` chain of the checkpoint
endpoint): the left value if truthy, otherwise the right value. -/
def pyOr (a b : Option Int) : Option Int :=
  if pyTruthyInt a then a else b

/-- A `programs` row, with the `or ""` fallbacks of the loop folded into the
string fields. -/
structure PRow where
  id : Int
  program_en_name : String
  requirements : String
  canonical_program_id : Option Int
  category : Option String
deriving DecidableEq

/-- An `ic_program_stats` or `cases` row; `rawName` is `program_name`
resp. `applied_program` (with the loop's `or ""` fallback folded in). -/
structure SRow where
  id : Int
  rawName : String
  canonical_program_id : Option Int
deriving DecidableEq

/-- The three source tables. -/
structure Stores where
  programs : List PRow
  stats : List SRow
  cases : List SRow
deriving DecidableEq

/-- Trace events of one run: a table query, a record reaching
`map_to_canonical`, a row write. -/
inductive Event where
  | read (table : String)
  | matched (table : String) (id : Int) (name : String)
  | wrote (table : String) (id : Int)
deriving DecidableEq

/-- The structured result of `run_pipeline` (the fields every return path
carries). -/
structure RunResult where
  status : String
  programs_updated : Nat
  stats_updated : Nat
  cases_updated : Nat
deriving DecidableEq

/-- Result, final table states, and the event trace of one run. -/
structure RunOutput where
  result : RunResult
  stores : Stores
  trace : List Event
deriving DecidableEq

/-- The catalog load at the start of a run: the query raises, or returns
`None`, or returns a list of entries. -/
inductive CatalogLoad where
  | failure (msg : String)
  | loaded (data : Option (List Entry))

/-- The `programs` query: `is_("canonical_program_id", "null")` when
`only_unmatched`, `gt("id", resume_from_id)` when `resume_from_table` equals
this table and `resume_from_id` is truthy, ordered ascending (the row list is
kept in that order). -/
def selectPrograms (rows : List PRow) (only_unmatched : Bool)
    (resume_from_id : Option Int) (resume_from_table : Option String) : List PRow :=
  let base := if only_unmatched then rows.filter (fun r => r.canonical_program_id = none) else rows
  match resume_from_id with
  | some n =>
    if resume_from_table = some "programs" ∧ n ≠ 0 then base.filter (fun r => n < r.id)
    else base
  | none => base

/-- The `ic_program_stats` / `cases` query, identical to `selectPrograms` with
the table name `tname`. -/
def selectSRows (tname : String) (rows : List SRow) (only_unmatched : Bool)
    (resume_from_id : Option Int) (resume_from_table : Option String) : List SRow :=
  let base := if only_unmatched then rows.filter (fun r => r.canonical_program_id = none) else rows
  match resume_from_id with
  | some n =>
    if resume_from_table = some tname ∧ n ≠ 0 then base.filter (fun r => n < r.id)
    else base
  | none => base

/-- One `programs`-row write: `update({"category": category, [\x7b...\x7d]})`
keyed on id — category is always written, `canonical_program_id` only when the
matcher result is truthy. -/
def writeProgram (tab : List PRow) (i : Int) (cid : Option Int) (cat : String) : List PRow :=
  tab.map (fun r =>
    if r.id = i then
      { r with
        category := some cat,
        canonical_program_id := if pyTruthyInt cid then cid else r.canonical_program_id }
    else r)

/-- One `ic_program_stats`/`cases` write: set `canonical_program_id` keyed on id. -/
def writeSRow (tab : List SRow) (i : Int) (cid : Option Int) : List SRow :=
  tab.map (fun r => if r.id = i then { r with canonical_program_id := cid } else r)

/-- The `programs` loop body over the queried snapshot: every record is handed
to the matcher and the classifier and then written (category always, canonical
id when truthy); the update counter advances for every written record. -/
def processPrograms (fz lm : String → String → Bool) (catalog : List Entry) :
    List PRow → List PRow → Nat × List PRow × List Event
  | [], tab => (0, tab, [])
  | p :: rest, tab =>
    let cid := map_to_canonical fz lm p.program_en_name catalog
    let cat := classify_category p.program_en_name p.requirements
    let tab1 := writeProgram tab p.id cid cat
    let out := processPrograms fz lm catalog rest tab1
    (out.1 + 1, out.2.1,
      Event.matched "programs" p.id p.program_en_name :: Event.wrote "programs" p.id :: out.2.2)

/-- The denylist of organizational words of the `ic_program_stats` and `cases`
loops (`invalid_keywords`). -/
def invalid_keywords : List String :=
  ["faculty", "school", "college", "department", "research masters",
   "pg research", "masters", "phd", "doctorate", "degree"]

/-- The short-label skip rule: at most 3 whitespace-separated tokens and some
denylist word occurring in the lower-cased name. -/
def shortLabelHit (name : String) : Bool :=
  decide (wordCount name ≤ 3) &&
    invalid_keywords.any (fun kw => pyIn kw (pyLowerS name))

/-- The organizational-prefix skip rule: the lower-cased name starts with
"faculty of", "school of", "college of" or "department of". -/
def orgPrefixHit (name : String) : Bool :=
  let l := (pyLowerS name).data
  listStartsWith l ("faculty of").data || listStartsWith l ("school of").data ||
    listStartsWith l ("college of").data || listStartsWith l ("department of").data

/-- The eligibility filter of the `ic_program_stats` and `cases` loops: a
record is handed to the matcher unless its name is empty, the short-label rule
fires, or the organizational-prefix rule fires. -/
def statEligible (name : String) : Bool :=
  if name = "" then false
  else if shortLabelHit name then false
  else if orgPrefixHit name then false
  else true

/-- The `ic_program_stats` / `cases` loop body over the queried snapshot:
ineligible records are skipped before any matching work; eligible records are
handed to the matcher and written (with the counter advancing) only when the
matcher result is truthy. -/
def processSkipTable (tname : String) (fz lm : String → String → Bool)
    (catalog : List Entry) : List SRow → List SRow → Nat × List SRow × List Event
  | [], tab => (0, tab, [])
  | s :: rest, tab =>
    if statEligible s.rawName then
      let cid := map_to_canonical fz lm s.rawName catalog
      if pyTruthyInt cid then
        let tab1 := writeSRow tab s.id cid
        let out := processSkipTable tname fz lm catalog rest tab1
        (out.1 + 1, out.2.1,
          Event.matched tname s.id s.rawName :: Event.wrote tname s.id :: out.2.2)
      else
        let out := processSkipTable tname fz lm catalog rest tab
        (out.1, out.2.1, Event.matched tname s.id s.rawName :: out.2.2)
    else processSkipTable tname fz lm catalog rest tab

/-- The main body of `run_pipeline` after a successful, nonempty catalog load:
the three kinds processed strictly in the order programs, ic_program_stats,
cases. -/
def runMain (fz lm : String → String → Bool) (catalog : List Entry) (st : Stores)
    (resume_from_id : Option Int) (resume_from_table : Option String)
    (only_unmatched : Bool) : RunOutput :=
  let pSnap := selectPrograms st.programs only_unmatched resume_from_id resume_from_table
  let p := processPrograms fz lm catalog pSnap st.programs
  let sSnap := selectSRows "ic_program_stats" st.stats only_unmatched resume_from_id resume_from_table
  let s := processSkipTable "ic_program_stats" fz lm catalog sSnap st.stats
  let cSnap := selectSRows "cases" st.cases only_unmatched resume_from_id resume_from_table
  let c := processSkipTable "cases" fz lm catalog cSnap st.cases
  { result :=
      { status := "ok", programs_updated := p.1, stats_updated := s.1, cases_updated := c.1 },
    stores := { programs := p.2.1, stats := s.2.1, cases := c.2.1 },
    trace :=
      Event.read "programs" ::
        (p.2.2 ++ Event.read "ic_program_stats" ::
          (s.2.2 ++ Event.read "cases" :: c.2.2)) }

/-- `run_pipeline(resume_from_id, resume_from_table, only_unmatched)` for a
run whose stop/pause flags stay unset: a raising catalog load returns status
"error", a `None` or empty catalog returns status "stopped", each with zero
updates, untouched stores and no table query; otherwise the three kinds are
processed. -/
def run_pipeline (fz lm : String → String → Bool) (load : CatalogLoad) (st : Stores)
    (resume_from_id : Option Int) (resume_from_table : Option String)
    (only_unmatched : Bool) : RunOutput :=
  match load with
  | CatalogLoad.failure _ =>
    { result := { status := "error", programs_updated := 0, stats_updated := 0, cases_updated := 0 },
      stores := st, trace := [] }
  | CatalogLoad.loaded none =>
    { result := { status := "stopped", programs_updated := 0, stats_updated := 0, cases_updated := 0 },
      stores := st, trace := [] }
  | CatalogLoad.loaded (some catalog) =>
    if catalog.length = 0 then
      { result := { status := "stopped", programs_updated := 0, stats_updated := 0, cases_updated := 0 },
        stores := st, trace := [] }
    else runMain fz lm catalog st resume_from_id resume_from_table only_unmatched

/-! ## Checkpoint endpoint (api/v1/canonical.py, get_checkpoint) -/

/-- Per-kind checkpoint data computed by the endpoint's three queries. -/
structure KindCheckpoint where
  last_processed_id : Option Int
  first_unmatched_id : Option Int
  unmatched_count : Nat
deriving DecidableEq

/-- Highest id among rows with a non-null canonical id
(`not_.is_("canonical_program_id", "null").order("id", desc=True).limit(1)`). -/
def rowsMatchedMax (rows : List (Int × Option Int)) : Option Int :=
  rows.foldl
    (fun acc r =>
      match r.2 with
      | some _ => match acc with | none => some r.1 | some m => some (max m r.1)
      | none => acc)
    none

/-- Lowest id among rows with a null canonical id
(`is_("canonical_program_id", "null").order("id").limit(1)`). -/
def rowsNullMin (rows : List (Int × Option Int)) : Option Int :=
  rows.foldl
    (fun acc r =>
      match r.2 with
      | none => match acc with | none => some r.1 | some m => some (min m r.1)
      | some _ => acc)
    none

/-- Count of rows with a null canonical id. -/
def rowsNullCount (rows : List (Int × Option Int)) : Nat :=
  rows.countP (fun r => decide (r.2 = none))

/-- The per-kind checkpoint of a table given as (id, canonical id) rows. -/
def tableCheckpoint (rows : List (Int × Option Int)) : KindCheckpoint :=
  { last_processed_id := rowsMatchedMax rows,
    first_unmatched_id := rowsNullMin rows,
    unmatched_count := rowsNullCount rows }

/-- The endpoint's recommendation: `resume_from_table` is the Python and/or
chain over the three kinds' `first_unmatched_id` truthiness, and
`resume_from_id` is the `or` chain over the three kinds' `last_processed_id`,
independent of the chosen table. -/
def checkpointRecommendation (p s c : KindCheckpoint) : Option String × Option Int :=
  ( if pyTruthyInt p.first_unmatched_id then some "programs"
    else if pyTruthyInt s.first_unmatched_id then some "ic_program_stats"
    else if pyTruthyInt c.first_unmatched_id then some "cases"
    else none,
    pyOr p.last_processed_id (pyOr s.last_processed_id c.last_processed_id) )

/-! ## The pause/resume lock discipline (run_pipeline.py, worker prologue)

In the per-record prologue of every one of the three loops, the code executes

  with _state_lock:
      if _pipeline_state["should_stop"]: ...
      while _pipeline_state["is_paused"]:
          time.sleep(0.5)
      ...

so the polling wait on `is_paused` runs while `_state_lock` is held, and
`resume_pipeline` (like `stop_pipeline`, `get_pipeline_status`) begins with
`with _state_lock`.  The transition system below models exactly these two
interacting threads: the worker in its prologue and a controller calling
`resume_pipeline`. -/

/-- Who holds `_state_lock`. -/
inductive LockOwner where
  | free
  | worker
  | ctrl
deriving DecidableEq

/-- The worker's position in the per-record prologue. -/
inductive WLoc where
  | acquire
  | poll
  | advance
deriving DecidableEq

/-- The controller's position in `resume_pipeline`. -/
inductive KLoc where
  | want
  | crit
  | done
deriving DecidableEq

/-- Joint state of lock, pause flag, worker and controller. -/
structure PauseState where
  lock : LockOwner
  isPaused : Bool
  w : WLoc
  k : KLoc
deriving DecidableEq

/-- Interleaved small-step semantics of the worker prologue and a concurrent
`resume_pipeline` call, with the polling wait inside the lock exactly as in
the source. -/
inductive PauseStep : PauseState → PauseState → Prop where
  | workerAcquire (p : Bool) (k : KLoc) :
      PauseStep ⟨LockOwner.free, p, WLoc.acquire, k⟩ ⟨LockOwner.worker, p, WLoc.poll, k⟩
  | workerSleep (k : KLoc) :
      PauseStep ⟨LockOwner.worker, true, WLoc.poll, k⟩ ⟨LockOwner.worker, true, WLoc.poll, k⟩
  | workerUnpause (k : KLoc) :
      PauseStep ⟨LockOwner.worker, false, WLoc.poll, k⟩ ⟨LockOwner.worker, false, WLoc.advance, k⟩
  | workerRelease (p : Bool) (k : KLoc) :
      PauseStep ⟨LockOwner.worker, p, WLoc.advance, k⟩ ⟨LockOwner.free, p, WLoc.acquire, k⟩
  | ctrlAcquire (p : Bool) (w : WLoc) :
      PauseStep ⟨LockOwner.free, p, w, KLoc.want⟩ ⟨LockOwner.ctrl, p, w, KLoc.crit⟩
  | ctrlResume (p : Bool) (w : WLoc) :
      PauseStep ⟨LockOwner.ctrl, p, w, KLoc.crit⟩ ⟨LockOwner.free, false, w, KLoc.done⟩

/-- The configuration reached when the worker observes `is_paused` inside its
locked prologue while a `resume_pipeline` call is waiting for the lock. -/
def pauseDeadlock : PauseState :=
  ⟨LockOwner.worker, true, WLoc.poll, KLoc.want⟩

/-! ## Stage acceptance predicates and other derived notions used in the
statements below -/

/-- Acceptance predicate of the exact stage, on the already-normalized input. -/
def exactP (norm : String) (c : Entry) : Bool :=
  decide (normalize_name c.canonical_program_name_en = norm)

/-- Acceptance predicate of the fuzzy stage. -/
def fuzzyP (fz : String → String → Bool) (norm : String) (c : Entry) : Bool :=
  fz norm (normalize_name c.canonical_program_name_en)

/-- Acceptance predicate of the keyword stage. -/
def keywordP (norm : String) (c : Entry) : Bool :=
  decide (c.keywords ≠ []) && decide (scoreThreshold ≤ keyword_overlap_score norm c.keywords)

/-- Acceptance predicate of the semantic stage, on the raw input name. -/
def llmP (lm : String → String → Bool) (program_name : String) (c : Entry) : Bool :=
  lm program_name c.canonical_program_name_en

/-- Recursive maximum of category scores with a starting value, mirroring the
running `best_score` of `classify_category`. -/
def foldMaxScore (text : String) : List (String × List String) → ℚ → ℚ
  | [], s => s
  | p :: t, s => max (keyword_overlap_score text p.2) (foldMaxScore text t s)

/-- A statistic/case record on which the skip-table loop performs a write:
eligible for matching and carrying a truthy matcher result. -/
def sGood (fz lm : String → String → Bool) (catalog : List Entry) (s : SRow) : Bool :=
  statEligible s.rawName && pyTruthyInt (map_to_canonical fz lm s.rawName catalog)

/-! ## Concrete instances used by the closed statements below -/

/-- The constantly-false external judge (a fuzzy/semantic oracle accepting
nothing, e.g. an oracle whose calls all fail). -/
def ffOracle : String → String → Bool := fun _ _ => false

/-- The constantly-true external judge (an oracle accepting everything). -/
def ttOracle : String → String → Bool := fun _ _ => true

/-- One-entry catalog whose entry matches none of the record names used below. -/
def zCatalog : List Entry := [⟨1, "zz", []⟩]

/-- A catalog holding an exact-stage candidate for "Data Science" at id 2,
after a non-matching entry and before a duplicate at id 3. -/
def c1cat : List Entry :=
  [⟨1, "Other Program", []⟩, ⟨2, "Data Science", []⟩, ⟨3, "Data Science", []⟩]

/-- Empty source stores. -/
def emptyStores : Stores := ⟨[], [], []⟩

/-- A `programs` table holding one unmatched record whose raw name is an
organizational label. -/
def c2stores : Stores := ⟨[⟨1, "Faculty of Engineering", "", none, none⟩], [], []⟩

/-- A `programs` table holding one unmatched record that no stage matches. -/
def c7stores : Stores := ⟨[⟨1, "x", "", none, none⟩], [], []⟩

/-- An `ic_program_stats` table holding a short organizational label and a
long name starting with "Faculty of". -/
def c8stores : Stores :=
  ⟨[], [⟨1, "Faculty of Engineering", none⟩,
        ⟨2, "Faculty of Engineering and Advanced Computing", none⟩], []⟩

/-- Checkpoint rows of a fully-matched `programs` table with highest id 100. -/
def c6programsRows : List (Int × Option Int) := [(1, some 7), (100, some 9)]

/-- Checkpoint rows of an `ic_program_stats` table whose last-matched id is 2
and whose first unmatched id is 5. -/
def c6statsRows : List (Int × Option Int) := [(2, some 5), (5, none)]

/-- Checkpoint rows of an empty `cases` table. -/
def c6casesRows : List (Int × Option Int) := []

/-! ## Theorems -/

set_option maxRecDepth 40000

/-- Claim C4: the spec states `normalize(normalize(x)) == normalize(x)` for
every string x.  The token-removal regex of `normalize_name` has no word
boundaries and runs in a single pass, so removing a token can create a fresh
token occurrence: on the failing input "mmsa" one pass removes the inner "ms"
leaving "ma", and a second pass removes that — the code violates its stated
idempotence. -/
theorem c4_normalize_not_idempotent :
    normalize_name "mmsa" = "ma" ∧ normalize_name (normalize_name "mmsa") = "" ∧
    normalize_name (normalize_name "mmsa") ≠ normalize_name "mmsa" :=
  ⟨rfl, rfl, by decide⟩

/-- Claim C5: the spec states the degree/qualifier tokens are removed only as
whole-word substrings, so that "ma" strictly inside "mathematics" is left
intact.  The regex of `normalize_name` has no word boundaries: on the failing
input "mathematics" the code removes both inner "ma" occurrences, producing
"thetics" (likewise for "MA Mathematics"). -/
theorem c5_token_removed_inside_word :
    normalize_name "mathematics" = "thetics" ∧ normalize_name "MA Mathematics" = "thetics" :=
  ⟨rfl, rfl⟩

/-- Claim C6: the spec states the checkpoint recommendation pairs the first
kind still holding an unmatched record with that same kind's last-matched id.
On the failing input — programs fully matched up to id 100, ic_program_stats
with last-matched id 2 and first-unmatched id 5 — the endpoint recommends the
ic_program_stats kind but pairs it with 100, the programs kind's last-matched
id, because `resume_from_id` is an `or` chain independent of the chosen
kind. -/
theorem c6_checkpoint_recommendation_inconsistent :
    checkpointRecommendation (tableCheckpoint c6programsRows) (tableCheckpoint c6statsRows)
        (tableCheckpoint c6casesRows) = (some "ic_program_stats", some 100) ∧
    (tableCheckpoint c6statsRows).last_processed_id = some 2 ∧
    (some (100 : Int)) ≠ (some (2 : Int)) :=
  ⟨rfl, rfl, by decide⟩

/-- Claim C3 (amended): a raising catalog load aborts the run with status
"error" (the code's fatal-error status), while a `None` or empty catalog
aborts it with status "stopped"; every such abort reports zero updates, leaves
all three source tables untouched and performs no source query, no match and
no write (empty trace). -/
theorem c3_catalog_abort (fz lm : String → String → Bool) (st : Stores)
    (rid : Option Int) (rtab : Option String) (ou : Bool) (msg : String) :
    run_pipeline fz lm (CatalogLoad.failure msg) st rid rtab ou =
      ⟨⟨"error", 0, 0, 0⟩, st, []⟩ ∧
    run_pipeline fz lm (CatalogLoad.loaded none) st rid rtab ou =
      ⟨⟨"stopped", 0, 0, 0⟩, st, []⟩ ∧
    run_pipeline fz lm (CatalogLoad.loaded (some [])) st rid rtab ou =
      ⟨⟨"stopped", 0, 0, 0⟩, st, []⟩ :=
  ⟨rfl, rfl, rfl⟩

/-- Claim C3, counterexample to the stated status: on an empty (but
successfully loaded) catalog the run returns status "stopped", not the fatal
"error" status the claim (Failed) asserts. -/
theorem c3_empty_catalog_status_counterexample :
    (run_pipeline ffOracle ffOracle (CatalogLoad.loaded (some []))
        emptyStores none none true).result.status = "stopped" ∧
    ("stopped" : String) ≠ "error" :=
  ⟨rfl, by decide⟩

/-- Claim C8, counterexample: "Faculty of Engineering and Advanced Computing"
is indeed not caught by the short-label rule (6 tokens), but its lower-cased
form starts with "faculty of", so the organizational-prefix rule skips it and
it never reaches the cascading matcher, contrary to the claim. -/
theorem c8_prefix_rule_counterexample :
    shortLabelHit "Faculty of Engineering and Advanced Computing" = false ∧
    Event.matched "ic_program_stats" 2 "Faculty of Engineering and Advanced Computing" ∉
      (run_pipeline ffOracle ffOracle (CatalogLoad.loaded (some zCatalog))
        c8stores none none true).trace := by
  refine ⟨rfl, ?_⟩
  have h : (run_pipeline ffOracle ffOracle (CatalogLoad.loaded (some zCatalog))
      c8stores none none true).trace
      = [Event.read "programs", Event.read "ic_program_stats", Event.read "cases"] := rfl
  rw [h]
  decide

/-- Claim C8 (amended): in the statistic/case loops, "Faculty of Engineering"
(3 tokens, containing "faculty") is filtered before any matching work, and
"Faculty of Engineering and Advanced Computing" (6 tokens) escapes the
short-label rule but is filtered by the organizational-prefix rule
("faculty of" start), so neither record reaches the cascading matcher: a run
over a table holding exactly these two records emits no matched event. -/
theorem c8_filter_behaviour :
    statEligible "Faculty of Engineering" = false ∧
    shortLabelHit "Faculty of Engineering and Advanced Computing" = false ∧
    orgPrefixHit "Faculty of Engineering and Advanced Computing" = true ∧
    statEligible "Faculty of Engineering and Advanced Computing" = false ∧
    (run_pipeline ffOracle ffOracle (CatalogLoad.loaded (some zCatalog))
        c8stores none none true).trace
      = [Event.read "programs", Event.read "ic_program_stats", Event.read "cases"] :=
  ⟨rfl, rfl, rfl, rfl, rfl⟩

/-- Claim C2, counterexample: the `programs` loop applies no eligibility
filter — the denylisted label "Faculty of Engineering" (ineligible under the
statistic/case filter) is handed to the cascading matcher when it occurs as a
primary record. -/
theorem c2_primary_unfiltered_counterexample :
    statEligible "Faculty of Engineering" = false ∧
    Event.matched "programs" 1 "Faculty of Engineering" ∈
      (run_pipeline ffOracle ffOracle (CatalogLoad.loaded (some zCatalog))
        c2stores none none true).trace := by
  refine ⟨rfl, ?_⟩
  have h : (run_pipeline ffOracle ffOracle (CatalogLoad.loaded (some zCatalog))
      c2stores none none true).trace
      = [Event.read "programs", Event.matched "programs" 1 "Faculty of Engineering",
         Event.wrote "programs" 1, Event.read "ic_program_stats", Event.read "cases"] := rfl
  rw [h]
  decide

/-- Claim C10: the spec states the state lock is held only for flag/counter
read-modify-write and never across the pause-polling wait, so a concurrent
resume can always acquire it.  In the code the `while is_paused: sleep(0.5)`
loop runs inside `with _state_lock`: from the configuration where the worker
polls the pause flag holding the lock while a `resume_pipeline` call waits for
it, the only enabled transition is the worker's sleep self-loop — every
reachable configuration is that same one, the pause flag never clears and the
resume call never completes. -/
theorem c10_pause_poll_deadlock :
    ∀ c : PauseState, Relation.ReflTransGen PauseStep pauseDeadlock c →
      c = pauseDeadlock ∧ c.isPaused = true ∧ c.k ≠ KLoc.done := by
  have hstep : ∀ c : PauseState, PauseStep pauseDeadlock c → c = pauseDeadlock := by
    intro c h
    simp only [pauseDeadlock] at h ⊢
    cases h
    rfl
  intro c h
  induction h with
  | refl => exact ⟨rfl, rfl, by decide⟩
  | tail hab hbc ih =>
    obtain ⟨hb, -, -⟩ := ih
    subst hb
    have hc := hstep _ hbc
    subst hc
    exact ⟨rfl, rfl, by decide⟩

/-- Witness for C10: the deadlocked configuration itself is reachable (in zero
steps), pauses, and has not completed the resume call. -/
theorem c10_pause_poll_deadlock_witness :
    pauseDeadlock = pauseDeadlock ∧ pauseDeadlock.isPaused = true ∧
      pauseDeadlock.k ≠ KLoc.done :=
  c10_pause_poll_deadlock pauseDeadlock Relation.ReflTransGen.refl

/-- The exact-stage loop returns the id of the first entry, in catalog order,
accepted by the exact predicate. -/
lemma findExact_eq (norm : String) (l : List Entry) :
    findExact norm l = (l.find? (exactP norm)).map Entry.id := by
  induction l with
  | nil => rfl
  | cons c rest ih =>
    by_cases h : normalize_name c.canonical_program_name_en = norm
    · simp [findExact, exactP, h]
    · simp [findExact, exactP, h, ih]

/-- The fuzzy-stage loop returns the id of the first entry, in catalog order,
accepted by the fuzzy judge. -/
lemma findFuzzy_eq (fz : String → String → Bool) (norm : String) (l : List Entry) :
    findFuzzy fz norm l = (l.find? (fuzzyP fz norm)).map Entry.id := by
  induction l with
  | nil => rfl
  | cons c rest ih =>
    cases h : fz norm (normalize_name c.canonical_program_name_en)
    · simp [findFuzzy, fuzzyP, h, ih]
    · simp [findFuzzy, fuzzyP, h]

/-- The keyword-stage loop returns the id of the first entry, in catalog
order, accepted by the keyword predicate. -/
lemma findKeyword_eq (norm : String) (l : List Entry) :
    findKeyword norm l = (l.find? (keywordP norm)).map Entry.id := by
  induction l with
  | nil => rfl
  | cons c rest ih =>
    by_cases h : c.keywords ≠ [] ∧ scoreThreshold ≤ keyword_overlap_score norm c.keywords
    · simp [findKeyword, keywordP, h, h.1, h.2]
    · rw [Classical.not_and_iff_or_not_not] at h
      rcases h with h | h
      · simp at h
        simp [findKeyword, keywordP, h, ih]
      · have hne : ¬(c.keywords ≠ [] ∧ scoreThreshold ≤ keyword_overlap_score norm c.keywords) := by
          intro hc
          exact h hc.2
        simp [findKeyword, keywordP, hne, h, ih]

/-- The semantic-stage loop returns the id of the first entry, in catalog
order, accepted by the semantic judge. -/
lemma findLlm_eq (lm : String → String → Bool) (program_name : String) (l : List Entry) :
    findLlm lm program_name l = (l.find? (llmP lm program_name)).map Entry.id := by
  induction l with
  | nil => rfl
  | cons c rest ih =>
    cases h : lm program_name c.canonical_program_name_en
    · simp [findLlm, llmP, h, ih]
    · simp [findLlm, llmP, h]

/-- The nested stage match of `map_to_canonical` is the left-biased cascade of
its four stage results. -/
lemma cascade_match (o1 o2 o3 o4 : Option Int) :
    (match o1 with
     | some i => some i
     | none =>
       match o2 with
       | some i => some i
       | none =>
         match o3 with
         | some i => some i
         | none => o4) =
      o1.orElse (fun _ => o2.orElse (fun _ => o3.orElse (fun _ => o4))) := by
  cases o1 <;> cases o2 <;> cases o3 <;> rfl

/-- Claim C1: for a nonempty raw name, `map_to_canonical` is the left-biased
cascade exact, fuzzy, keyword, semantic, each stage returning the id of the
first catalog entry (in catalog iteration order) accepted by that stage's
predicate; in particular, whenever some entry satisfies the exact predicate,
the result is the id of the first such entry, whatever the fuzzy and semantic
judges answer. -/
theorem c1_stage_order (fz lm : String → String → Bool) (name : String)
    (catalog : List Entry) (h : name ≠ "") :
    (map_to_canonical fz lm name catalog =
      ((catalog.find? (exactP (normalize_name name))).map Entry.id).orElse (fun _ =>
        ((catalog.find? (fuzzyP fz (normalize_name name))).map Entry.id).orElse (fun _ =>
          ((catalog.find? (keywordP (normalize_name name))).map Entry.id).orElse (fun _ =>
            (catalog.find? (llmP lm name)).map Entry.id)))) ∧
    ((catalog.find? (exactP (normalize_name name))).isSome = true →
      map_to_canonical fz lm name catalog =
        (catalog.find? (exactP (normalize_name name))).map Entry.id) := by
  have hmain : map_to_canonical fz lm name catalog =
      ((catalog.find? (exactP (normalize_name name))).map Entry.id).orElse (fun _ =>
        ((catalog.find? (fuzzyP fz (normalize_name name))).map Entry.id).orElse (fun _ =>
          ((catalog.find? (keywordP (normalize_name name))).map Entry.id).orElse (fun _ =>
            (catalog.find? (llmP lm name)).map Entry.id))) := by
    rcases eq_or_ne catalog [] with rfl | hc
    · simp [map_to_canonical, List.find?, Option.orElse]
    · simp only [map_to_canonical, if_neg (by simp [h, hc] : ¬(name = "" ∨ catalog = []))]
      rw [findExact_eq, findFuzzy_eq, findKeyword_eq, findLlm_eq]
      exact cascade_match _ _ _ _
  refine ⟨hmain, fun hs => ?_⟩
  rw [hmain]
  obtain ⟨a, ha⟩ := Option.isSome_iff_exists.mp hs
  rw [ha]
  rfl

/-- Witness for C1: on the catalog `c1cat` the second entry is the first exact
candidate for "Data Science", and it wins even against constantly-accepting
fuzzy and semantic judges. -/
theorem c1_stage_order_witness :
    ("Data Science" : String) ≠ "" ∧
    map_to_canonical ttOracle ttOracle "Data Science" c1cat = some 2 := by
  refine ⟨by decide, ?_⟩
  have h := (c1_stage_order ttOracle ttOracle "Data Science" c1cat (by decide)).2 rfl
  rw [h]
  rfl

/-- Every record of the queried `programs` snapshot is handed to the matcher:
its matched event is in the loop's trace. -/
lemma processPrograms_matched (fz lm : String → String → Bool) (cat : List Entry) :
    ∀ snap tab (p : PRow), p ∈ snap →
      Event.matched "programs" p.id p.program_en_name ∈
        (processPrograms fz lm cat snap tab).2.2 := by
  intro snap
  induction snap with
  | nil =>
    intro tab p hp
    cases hp
  | cons q rest ih =>
    intro tab p hp
    rcases List.mem_cons.mp hp with rfl | hp
    · simp [processPrograms]
    · simp only [processPrograms]
      exact List.mem_cons_of_mem _ (List.mem_cons_of_mem _ (ih _ p hp))

/-- Every event of the `programs` loop carries the table name "programs". -/
lemma processPrograms_shape (fz lm : String → String → Bool) (cat : List Entry) :
    ∀ snap tab e, e ∈ (processPrograms fz lm cat snap tab).2.2 →
      (∃ i nm, e = Event.matched "programs" i nm) ∨ (∃ i, e = Event.wrote "programs" i) := by
  intro snap
  induction snap with
  | nil =>
    intro tab e he
    cases he
  | cons q rest ih =>
    intro tab e he
    simp only [processPrograms] at he
    rcases List.mem_cons.mp he with rfl | he
    · exact Or.inl ⟨q.id, q.program_en_name, rfl⟩
    rcases List.mem_cons.mp he with rfl | he
    · exact Or.inr ⟨q.id, rfl⟩
    exact ih _ e he

/-- Every event of a skip-table loop carries that loop's table name, and every
matched event of it has an eligible record name. -/
lemma processSkipTable_shape (tname : String) (fz lm : String → String → Bool)
    (cat : List Entry) :
    ∀ snap tab e, e ∈ (processSkipTable tname fz lm cat snap tab).2.2 →
      (∃ i nm, e = Event.matched tname i nm ∧ statEligible nm = true) ∨
        (∃ i, e = Event.wrote tname i) := by
  intro snap
  induction snap with
  | nil =>
    intro tab e he
    cases he
  | cons s rest ih =>
    intro tab e he
    by_cases hel : statEligible s.rawName
    · by_cases ht : pyTruthyInt (map_to_canonical fz lm s.rawName cat)
      · simp only [processSkipTable, if_pos hel, if_pos ht] at he
        rcases List.mem_cons.mp he with rfl | he
        · exact Or.inl ⟨s.id, s.rawName, rfl, hel⟩
        rcases List.mem_cons.mp he with rfl | he
        · exact Or.inr ⟨s.id, rfl⟩
        exact ih _ e he
      · simp only [processSkipTable, if_pos hel, if_neg ht] at he
        rcases List.mem_cons.mp he with rfl | he
        · exact Or.inl ⟨s.id, s.rawName, rfl, hel⟩
        exact ih _ e he
    · simp only [processSkipTable, if_neg hel] at he
      exact ih _ e he

/-- In the main run body, a matched event naming the `ic_program_stats` table
only arises for a record the eligibility filter accepted. -/
lemma runMain_matched_stats (fz lm : String → String → Bool) (cat : List Entry)
    (st : Stores) (rid : Option Int) (rtab : Option String) (ou : Bool)
    (i : Int) (nm : String) :
    Event.matched "ic_program_stats" i nm ∈ (runMain fz lm cat st rid rtab ou).trace →
      statEligible nm = true := by
  intro hm
  simp only [runMain] at hm
  rcases List.mem_cons.mp hm with h | hm
  · simp at h
  rcases List.mem_append.mp hm with hP | hm
  · rcases processPrograms_shape fz lm cat _ _ _ hP with ⟨j, nm2, he⟩ | ⟨j, he⟩ <;> simp at he
  rcases List.mem_cons.mp hm with h | hm
  · simp at h
  rcases List.mem_append.mp hm with hS | hm
  · rcases processSkipTable_shape _ fz lm cat _ _ _ hS with ⟨j, nm2, he, hel⟩ | ⟨j, he⟩
    · injection he with h1 h2 h3
      rw [h3]
      exact hel
    · simp at he
  rcases List.mem_cons.mp hm with h | hm
  · simp at h
  rcases processSkipTable_shape _ fz lm cat _ _ _ hm with ⟨j, nm2, he, hel⟩ | ⟨j, he⟩ <;> simp at he

/-- In the main run body, a matched event naming the `cases` table only arises
for a record the eligibility filter accepted. -/
lemma runMain_matched_cases (fz lm : String → String → Bool) (cat : List Entry)
    (st : Stores) (rid : Option Int) (rtab : Option String) (ou : Bool)
    (i : Int) (nm : String) :
    Event.matched "cases" i nm ∈ (runMain fz lm cat st rid rtab ou).trace →
      statEligible nm = true := by
  intro hm
  simp only [runMain] at hm
  rcases List.mem_cons.mp hm with h | hm
  · simp at h
  rcases List.mem_append.mp hm with hP | hm
  · rcases processPrograms_shape fz lm cat _ _ _ hP with ⟨j, nm2, he⟩ | ⟨j, he⟩ <;> simp at he
  rcases List.mem_cons.mp hm with h | hm
  · simp at h
  rcases List.mem_append.mp hm with hS | hm
  · rcases processSkipTable_shape _ fz lm cat _ _ _ hS with ⟨j, nm2, he, hel⟩ | ⟨j, he⟩ <;> simp at he
  rcases List.mem_cons.mp hm with h | hm
  · simp at h
  rcases processSkipTable_shape _ fz lm cat _ _ _ hm with ⟨j, nm2, he, hel⟩ | ⟨j, he⟩
  · injection he with h1 h2 h3
    rw [h3]
    exact hel
  · simp at he

/-- In the main run body, every selected primary record reaches the matcher. -/
lemma runMain_matched_programs (fz lm : String → String → Bool) (cat : List Entry)
    (st : Stores) (rid : Option Int) (rtab : Option String) (ou : Bool)
    (p : PRow) (hp : p ∈ selectPrograms st.programs ou rid rtab) :
    Event.matched "programs" p.id p.program_en_name ∈
      (runMain fz lm cat st rid rtab ou).trace := by
  simp only [runMain]
  exact List.mem_cons_of_mem _
    (List.mem_append_left _ (processPrograms_matched fz lm cat _ _ p hp))

/-- Claim C2 (amended): the eligibility filter runs in the statistic and case
loops only — there no skipped record ever reaches the cascading matcher (every
matched event of those tables names an eligible record), while every selected
primary record is handed to the matcher with no filter at all. -/
theorem c2_filter_scope (fz lm : String → String → Bool) (load : CatalogLoad)
    (st : Stores) (rid : Option Int) (rtab : Option String) (ou : Bool) :
    (∀ i nm, Event.matched "ic_program_stats" i nm ∈
        (run_pipeline fz lm load st rid rtab ou).trace → statEligible nm = true) ∧
    (∀ i nm, Event.matched "cases" i nm ∈
        (run_pipeline fz lm load st rid rtab ou).trace → statEligible nm = true) ∧
    (∀ catalog, load = CatalogLoad.loaded (some catalog) → catalog ≠ [] →
      ∀ p ∈ selectPrograms st.programs ou rid rtab,
        Event.matched "programs" p.id p.program_en_name ∈
          (run_pipeline fz lm load st rid rtab ou).trace) := by
  cases load with
  | failure msg =>
    refine ⟨?_, ?_, ?_⟩
    · intro i nm hm
      simp [run_pipeline] at hm
    · intro i nm hm
      simp [run_pipeline] at hm
    · intro catalog hcat
      exact absurd hcat (by simp)
  | loaded od =>
    cases od with
    | none =>
      refine ⟨?_, ?_, ?_⟩
      · intro i nm hm
        simp [run_pipeline] at hm
      · intro i nm hm
        simp [run_pipeline] at hm
      · intro catalog hcat
        exact absurd hcat (by simp)
    | some catalog =>
      by_cases hlen : catalog.length = 0
      · refine ⟨?_, ?_, ?_⟩
        · intro i nm hm
          simp [run_pipeline, hlen] at hm
        · intro i nm hm
          simp [run_pipeline, hlen] at hm
        · intro catalog2 hcat hne
          injection hcat with h1
          injection h1 with h2
          subst h2
          exact absurd (List.length_eq_zero.mp hlen) hne
      · refine ⟨?_, ?_, ?_⟩
        · intro i nm hm
          rw [show run_pipeline fz lm (CatalogLoad.loaded (some catalog)) st rid rtab ou =
            runMain fz lm catalog st rid rtab ou from by
              simp [run_pipeline, hlen]] at hm
          exact runMain_matched_stats fz lm catalog st rid rtab ou i nm hm
        · intro i nm hm
          rw [show run_pipeline fz lm (CatalogLoad.loaded (some catalog)) st rid rtab ou =
            runMain fz lm catalog st rid rtab ou from by
              simp [run_pipeline, hlen]] at hm
          exact runMain_matched_cases fz lm catalog st rid rtab ou i nm hm
        · intro catalog2 hcat hne p hp
          rw [show run_pipeline fz lm (CatalogLoad.loaded (some catalog)) st rid rtab ou =
            runMain fz lm catalog st rid rtab ou from by
              simp [run_pipeline, hlen]]
          exact runMain_matched_programs fz lm catalog st rid rtab ou p hp

/-- Witness for C2 (amended): the primary-kind conjunct applied to the
concrete run over `c2stores`. -/
theorem c2_filter_scope_witness :
    Event.matched "programs" 1 "Faculty of Engineering" ∈
      (run_pipeline ffOracle ffOracle (CatalogLoad.loaded (some zCatalog))
        c2stores none none true).trace := by
  have h := (c2_filter_scope ffOracle ffOracle (CatalogLoad.loaded (some zCatalog))
    c2stores none none true).2.2 zCatalog rfl (by decide)
    ⟨1, "Faculty of Engineering", "", none, none⟩ (by decide)
  exact h

/-- With `only_unmatched` and no resume point, the `programs` query is the
null-canonical filter. -/
lemma selectPrograms_unmatched (rows : List PRow) (rtab : Option String) :
    selectPrograms rows true none rtab =
      rows.filter (fun r => decide (r.canonical_program_id = none)) := rfl

/-- With `only_unmatched` and no resume point, a skip-table query is the
null-canonical filter. -/
lemma selectSRows_unmatched (tname : String) (rows : List SRow) (rtab : Option String) :
    selectSRows tname rows true none rtab =
      rows.filter (fun r => decide (r.canonical_program_id = none)) := rfl

/-- The `programs` loop counts one update per selected record (category is
always written). -/
lemma processPrograms_count (fz lm : String → String → Bool) (cat : List Entry) :
    ∀ snap tab, (processPrograms fz lm cat snap tab).1 = snap.length := by
  intro snap
  induction snap with
  | nil =>
    intro tab
    rfl
  | cons q rest ih =>
    intro tab
    simp [processPrograms, ih]

/-- A skip-table loop counts exactly the records that are eligible and carry a
truthy matcher result. -/
lemma processSkipTable_count (tname : String) (fz lm : String → String → Bool)
    (cat : List Entry) :
    ∀ snap tab, (processSkipTable tname fz lm cat snap tab).1 =
      snap.countP (sGood fz lm cat) := by
  intro snap
  induction snap with
  | nil =>
    intro tab
    rfl
  | cons s rest ih =>
    intro tab
    cases hel : statEligible s.rawName with
    | false => simp [processSkipTable, hel, ih, sGood, List.countP_cons]
    | true =>
      cases htr : pyTruthyInt (map_to_canonical fz lm s.rawName cat) with
      | false => simp [processSkipTable, hel, htr, ih, sGood, List.countP_cons]
      | true => simp [processSkipTable, hel, htr, ih, sGood, List.countP_cons]

/-- A row that is still unmatched after a skip-table loop was an unmatched row
of the incoming table, and — if it is eligible with a truthy matcher result —
it was not part of the processed snapshot. -/
lemma processSkipTable_null_preserved (tname : String) (fz lm : String → String → Bool)
    (cat : List Entry) :
    ∀ snap tab r, r ∈ (processSkipTable tname fz lm cat snap tab).2.1 →
      r.canonical_program_id = none →
      r ∈ tab ∧ (sGood fz lm cat r = true → r ∉ snap) := by
  intro snap
  induction snap with
  | nil =>
    intro tab r hr hnull
    exact ⟨hr, fun _ => List.not_mem_nil r⟩
  | cons s rest ih =>
    intro tab r hr hnull
    cases hel : statEligible s.rawName with
    | false =>
      simp only [processSkipTable, hel, Bool.false_eq_true, if_false] at hr
      obtain ⟨htab, hni⟩ := ih _ r hr hnull
      refine ⟨htab, fun hg hmem => ?_⟩
      rcases List.mem_cons.mp hmem with rfl | hmem
      · rw [sGood, hel] at hg
        simp at hg
      · exact hni hg hmem
    | true =>
      cases htr : pyTruthyInt (map_to_canonical fz lm s.rawName cat) with
      | false =>
        simp only [processSkipTable, hel, htr, Bool.false_eq_true, if_false, if_true] at hr
        obtain ⟨htab, hni⟩ := ih _ r hr hnull
        refine ⟨htab, fun hg hmem => ?_⟩
        rcases List.mem_cons.mp hmem with rfl | hmem
        · rw [sGood, hel, htr] at hg
          simp at hg
        · exact hni hg hmem
      | true =>
        simp only [processSkipTable, hel, htr, if_true] at hr
        obtain ⟨htab, hni⟩ := ih _ r hr hnull
        simp only [writeSRow] at htab
        obtain ⟨r0, hr0, heq⟩ := List.mem_map.mp htab
        by_cases hid : r0.id = s.id
        · exfalso
          rw [if_pos hid] at heq
          have hcan : r.canonical_program_id = map_to_canonical fz lm s.rawName cat := by
            rw [← heq]
          rw [hnull] at hcan
          rw [← hcan] at htr
          simp [pyTruthyInt] at htr
        · rw [if_neg hid] at heq
          subst heq
          refine ⟨hr0, fun hg hmem => ?_⟩
          rcases List.mem_cons.mp hmem with rfl | hmem
          · exact hid rfl
          · exact hni hg hmem

/-- Claim C7 (amended): a second `onlyUnmatched` run immediately after a first
one (deterministic judges, no new source records) produces zero additional
statistic and case updates; the primary kind, whose loop writes the category
for every selected record, re-counts exactly the primary records still
unmatched after the first run — so its second-run count is zero only when
every primary record matched. -/
theorem c7_rerun (fz lm : String → String → Bool) (cat : List Entry) (st : Stores)
    (h : cat ≠ []) :
    ((run_pipeline fz lm (CatalogLoad.loaded (some cat))
        (run_pipeline fz lm (CatalogLoad.loaded (some cat)) st none none true).stores
        none none true).result.stats_updated = 0) ∧
    ((run_pipeline fz lm (CatalogLoad.loaded (some cat))
        (run_pipeline fz lm (CatalogLoad.loaded (some cat)) st none none true).stores
        none none true).result.cases_updated = 0) ∧
    ((run_pipeline fz lm (CatalogLoad.loaded (some cat))
        (run_pipeline fz lm (CatalogLoad.loaded (some cat)) st none none true).stores
        none none true).result.programs_updated =
      ((run_pipeline fz lm (CatalogLoad.loaded (some cat)) st none none true).stores.programs.filter
        (fun r => decide (r.canonical_program_id = none))).length) := by
  have hlen : ¬cat.length = 0 := fun h0 => h (List.length_eq_zero.mp h0)
  have hrun : ∀ st2 : Stores,
      run_pipeline fz lm (CatalogLoad.loaded (some cat)) st2 none none true =
        runMain fz lm cat st2 none none true := by
    intro st2
    simp [run_pipeline, hlen]
  simp only [hrun, runMain, selectPrograms_unmatched, selectSRows_unmatched,
    processPrograms_count, processSkipTable_count]
  refine ⟨?_, ?_, trivial⟩
  · rw [List.countP_eq_zero]
    intro r hrf
    obtain ⟨hrT, hrnull⟩ := List.mem_filter.mp hrf
    obtain ⟨htab, hni⟩ :=
      processSkipTable_null_preserved "ic_program_stats" fz lm cat _ _ r hrT
        (of_decide_eq_true hrnull)
    intro hg
    exact hni hg (List.mem_filter.mpr ⟨htab, hrnull⟩)
  · rw [List.countP_eq_zero]
    intro r hrf
    obtain ⟨hrT, hrnull⟩ := List.mem_filter.mp hrf
    obtain ⟨htab, hni⟩ :=
      processSkipTable_null_preserved "cases" fz lm cat _ _ r hrT
        (of_decide_eq_true hrnull)
    intro hg
    exact hni hg (List.mem_filter.mpr ⟨htab, hrnull⟩)

/-- Witness for C7 (amended): on `c7stores` (one never-matching primary
record) the second run makes zero statistic and case updates and one primary
update — the one still-unmatched record. -/
theorem c7_rerun_witness :
    zCatalog ≠ [] ∧
    (((run_pipeline ffOracle ffOracle (CatalogLoad.loaded (some zCatalog))
        (run_pipeline ffOracle ffOracle (CatalogLoad.loaded (some zCatalog)) c7stores none none true).stores
        none none true).result.stats_updated = 0) ∧
    ((run_pipeline ffOracle ffOracle (CatalogLoad.loaded (some zCatalog))
        (run_pipeline ffOracle ffOracle (CatalogLoad.loaded (some zCatalog)) c7stores none none true).stores
        none none true).result.cases_updated = 0) ∧
    ((run_pipeline ffOracle ffOracle (CatalogLoad.loaded (some zCatalog))
        (run_pipeline ffOracle ffOracle (CatalogLoad.loaded (some zCatalog)) c7stores none none true).stores
        none none true).result.programs_updated =
      ((run_pipeline ffOracle ffOracle (CatalogLoad.loaded (some zCatalog)) c7stores none none true).stores.programs.filter
        (fun r => decide (r.canonical_program_id = none))).length)) :=
  ⟨by decide, c7_rerun ffOracle ffOracle zCatalog c7stores (by decide)⟩

/-- Claim C7, counterexample: with one primary record no stage matches, the
second `onlyUnmatched` run still reports one primary update (the category
rewrite of the still-unmatched record), so the claimed all-zero second run is
false. -/
theorem c7_rerun_counterexample :
    ((run_pipeline ffOracle ffOracle (CatalogLoad.loaded (some zCatalog))
        (run_pipeline ffOracle ffOracle (CatalogLoad.loaded (some zCatalog)) c7stores none none true).stores
        none none true).result.programs_updated = 1) ∧
    ¬(((run_pipeline ffOracle ffOracle (CatalogLoad.loaded (some zCatalog))
        (run_pipeline ffOracle ffOracle (CatalogLoad.loaded (some zCatalog)) c7stores none none true).stores
        none none true).result.programs_updated = 0) ∧
      ((run_pipeline ffOracle ffOracle (CatalogLoad.loaded (some zCatalog))
        (run_pipeline ffOracle ffOracle (CatalogLoad.loaded (some zCatalog)) c7stores none none true).stores
        none none true).result.stats_updated = 0) ∧
      ((run_pipeline ffOracle ffOracle (CatalogLoad.loaded (some zCatalog))
        (run_pipeline ffOracle ffOracle (CatalogLoad.loaded (some zCatalog)) c7stores none none true).stores
        none none true).result.cases_updated = 0)) := by
  have h1 : (run_pipeline ffOracle ffOracle (CatalogLoad.loaded (some zCatalog))
      (run_pipeline ffOracle ffOracle (CatalogLoad.loaded (some zCatalog)) c7stores none none true).stores
      none none true).result.programs_updated = 1 := rfl
  refine ⟨h1, fun hc => ?_⟩
  rw [hc.1] at h1
  cases h1

/-- The starting value bounds the running maximum from below. -/
lemma le_foldMaxScore (text : String) :
    ∀ (l : List (String × List String)) (s : ℚ), s ≤ foldMaxScore text l s := by
  intro l
  induction l with
  | nil =>
    intro s
    exact le_refl s
  | cons q t ih =>
    intro s
    exact le_trans (ih s) (le_max_right _ _)

/-- Every listed category's score is bounded by the running maximum. -/
lemma score_le_foldMaxScore (text : String) :
    ∀ (l : List (String × List String)) (s : ℚ) (p : String × List String), p ∈ l →
      keyword_overlap_score text p.2 ≤ foldMaxScore text l s := by
  intro l
  induction l with
  | nil =>
    intro s p hp
    cases hp
  | cons q t ih =>
    intro s p hp
    rcases List.mem_cons.mp hp with rfl | hp
    · exact le_max_left _ _
    · exact le_trans (ih s p hp) (le_max_right _ _)

/-- When every listed score is at most the starting value, the running maximum
is the starting value. -/
lemma foldMaxScore_of_le (text : String) :
    ∀ (l : List (String × List String)) (s : ℚ),
      (∀ p ∈ l, keyword_overlap_score text p.2 ≤ s) → foldMaxScore text l s = s := by
  intro l
  induction l with
  | nil =>
    intro s _
    rfl
  | cons q t ih =>
    intro s h
    rw [foldMaxScore, ih s (fun p hp => h p (List.mem_cons_of_mem q hp))]
    exact max_eq_right (h q (List.mem_cons_self q t))

/-- When every listed score is at most the running best, the strict-greater
fold keeps its accumulator. -/
lemma bestFold_of_le (text : String) :
    ∀ (l : List (String × List String)) (b : Option String) (s : ℚ),
      (∀ p ∈ l, keyword_overlap_score text p.2 ≤ s) → bestFold text l (b, s) = (b, s) := by
  intro l
  induction l with
  | nil =>
    intro b s _
    rfl
  | cons q t ih =>
    intro b s h
    cases q with
    | mk cat kws =>
      simp only [bestFold]
      rw [if_neg (not_lt.mpr (h ⟨cat, kws⟩ (List.mem_cons_self _ t)))]
      exact ih b s (fun p hp => h p (List.mem_cons_of_mem _ hp))

/-- Raising the starting value of the running maximum takes the pointwise
maximum with it. -/
lemma foldMaxScore_shift (text : String) :
    ∀ (l : List (String × List String)) (x s : ℚ), s ≤ x →
      foldMaxScore text l x = max x (foldMaxScore text l s) := by
  intro l
  induction l with
  | nil =>
    intro x s h
    exact (max_eq_left h).symm
  | cons q t ih =>
    intro x s h
    rw [foldMaxScore, ih x s h, foldMaxScore]
    exact max_left_comm _ _ _

/-- When some listed score strictly exceeds the running best, the
strict-greater fold returns the first category attaining the overall maximum,
together with that maximum. -/
lemma bestFold_argmax (text : String) :
    ∀ (l : List (String × List String)) (b : Option String) (s : ℚ),
      s < foldMaxScore text l s →
      ∃ q, l.find? (fun p => decide (keyword_overlap_score text p.2 = foldMaxScore text l s)) = some q ∧
        bestFold text l (b, s) = (some q.1, foldMaxScore text l s) := by
  intro l
  induction l with
  | nil =>
    intro b s hs
    exact absurd hs (lt_irrefl s)
  | cons q t ih =>
    intro b s hs
    rcases le_or_lt (foldMaxScore text t s) (keyword_overlap_score text q.2) with hcase | hcase
    · -- the head attains the maximum
      have hM : foldMaxScore text (q :: t) s = keyword_overlap_score text q.2 := by
        rw [foldMaxScore]
        exact max_eq_left hcase
      rw [hM] at hs ⊢
      refine ⟨q, ?_, ?_⟩
      · exact List.find?_cons_of_pos _ (by simp)
      · cases q with
        | mk cat kws =>
          simp only [bestFold]
          rw [if_pos hs]
          exact bestFold_of_le text t _ _
            (fun p hp => le_trans (score_le_foldMaxScore text t s p hp) hcase)
    · -- the maximum is attained in the tail
      have hM : foldMaxScore text (q :: t) s = foldMaxScore text t s := by
        rw [foldMaxScore]
        exact max_eq_right (le_of_lt hcase)
      rw [hM] at hs ⊢
      have hhead : decide (keyword_overlap_score text q.2 = foldMaxScore text t s) = false := by
        simp
        exact ne_of_lt hcase
      rcases le_or_lt (keyword_overlap_score text q.2) s with hqs | hqs
      · -- head not even above the running best: accumulator unchanged
        obtain ⟨r, hfind, hbest⟩ := ih b s hs
        refine ⟨r, ?_, ?_⟩
        · simp only [List.find?, hhead]
          exact hfind
        · cases q with
          | mk cat kws =>
            simp only [bestFold]
            rw [if_neg (not_lt.mpr hqs)]
            exact hbest
      · -- head taken as intermediate best, later beaten in the tail
        have hshift : foldMaxScore text t (keyword_overlap_score text q.2) = foldMaxScore text t s := by
          rw [foldMaxScore_shift text t _ s (le_of_lt hqs)]
          exact max_eq_right (le_of_lt hcase)
        obtain ⟨r, hfind, hbest⟩ := ih (some q.1) (keyword_overlap_score text q.2) (by rw [hshift]; exact hcase)
        rw [hshift] at hfind hbest
        refine ⟨r, ?_, ?_⟩
        · simp only [List.find?, hhead]
          exact hfind
        · cases q with
          | mk cat kws =>
            simp only [bestFold]
            rw [if_pos hqs]
            exact hbest

/-- The specification-side best score is the running maximum over the category
table started at zero. -/
lemma specBestScore_eq (text : String) :
    specBestScore text = foldMaxScore text MAJOR_KEYWORDS 0 := by
  have hgen : ∀ (l : List (String × List String)) (s : ℚ),
      (l.map (fun p => keyword_overlap_score text p.2)).foldr max s = foldMaxScore text l s := by
    intro l
    induction l with
    | nil =>
      intro s
      rfl
    | cons q t ih =>
      intro s
      simp [foldMaxScore, ih]
  simp only [specBestScore, specScores]
  exact hgen MAJOR_KEYWORDS 0

/-- Claim C9: the category classifier equals its specification — "other" on an
empty or blank haystack, "other" when every category's overlap score is zero,
and otherwise the earliest-registered category attaining the strictly highest
score (ties resolve to the first-defined category). -/
theorem c9_classifier_matches_spec (pn rq : String) :
    classify_category pn rq = specClassify pn rq := by
  simp only [classify_category, specClassify]
  by_cases hb : pyStrip (pyLowerS (pn ++ " " ++ rq)).data = []
  · rw [if_pos hb, if_pos hb]
  · rw [if_neg hb, if_neg hb]
    by_cases hm : specBestScore (pyLowerS (pn ++ " " ++ rq)) ≤ 0
    · rw [if_pos hm]
      have h0 : ∀ p ∈ MAJOR_KEYWORDS,
          keyword_overlap_score (pyLowerS (pn ++ " " ++ rq)) p.2 ≤ 0 := by
        intro p hp
        calc keyword_overlap_score (pyLowerS (pn ++ " " ++ rq)) p.2
            ≤ foldMaxScore (pyLowerS (pn ++ " " ++ rq)) MAJOR_KEYWORDS 0 :=
              score_le_foldMaxScore _ MAJOR_KEYWORDS 0 p hp
          _ = specBestScore (pyLowerS (pn ++ " " ++ rq)) := (specBestScore_eq _).symm
          _ ≤ 0 := hm
      rw [bestFold_of_le _ MAJOR_KEYWORDS none 0 h0]
    · rw [if_neg hm]
      have hlt : (0 : ℚ) < foldMaxScore (pyLowerS (pn ++ " " ++ rq)) MAJOR_KEYWORDS 0 := by
        rw [← specBestScore_eq]
        exact lt_of_not_le hm
      obtain ⟨q, hfind, hbest⟩ := bestFold_argmax _ MAJOR_KEYWORDS none 0 hlt
      rw [hbest, specBestScore_eq, hfind]

end Admitai
